import Mathlib

/-!
Shallow embedding of `user_data/freqaimodels/LitmusClassificationMultiModel.py`.

The plugin owns four operations: `return_values` (identity on a dataframe),
`normalize_data` (fit-and-apply min/max normalization keyed on the train
partition, persisting per-column parameters into the kitchen's key-value
store), `fit` (wiring the partition pair into a CatBoost fit call), and
`predict` (filter, normalize from stored metadata, store the prediction
features in the kitchen, and return class probabilities with the kitchen's
do-predict mask).

Numeric values are modelled as rationals; the result of the normalization
division is an extended value `EF` that is either a finite rational or the
non-finite outcome (NaN or ±infinity) that IEEE floating point produces when
the denominator `max - min` is zero.
-/

/-- An extended numeric value: a finite rational, or a non-finite IEEE
outcome (NaN or ±infinity) as produced by a zero denominator. -/
inductive EF where
  | fin : ℚ → EF
  | nonfin : EF
deriving DecidableEq

/-- A raw feature matrix: named columns of rational values, in order. -/
abbrev RawDF := List (String × List ℚ)

/-- A normalized feature matrix: named columns of extended values. -/
abbrev NormDF := List (String × List EF)

/-- The kitchen's per-pair key-value store `dk.data`. -/
abbrev Store := String → Option ℚ

/-- Column-wise maximum, as pandas `DataFrame.max()` computes it on a
non-empty numeric column. -/
def colMax : List ℚ → ℚ
  | [] => 0
  | x :: xs => xs.foldl max x

/-- Column-wise minimum, as pandas `DataFrame.min()` computes it on a
non-empty numeric column. -/
def colMin : List ℚ → ℚ
  | [] => 0
  | x :: xs => xs.foldl min x

/-- The scalar transform `2*(v-min)/(max-min) - 1` of `normalize_data`,
with the IEEE behavior at a zero-width range: when `max = min` the division
has denominator zero and the float result is non-finite. -/
def normVal (mn mx v : ℚ) : EF :=
  if mx = mn then EF.nonfin else EF.fin (2 * (v - mn) / (mx - mn) - 1)

/-- Find a column by name (pandas label alignment picks the column with the
matching label; column names are unique in a pandas frame). -/
def findCol (cols : RawDF) (n : String) : Option (List ℚ) :=
  (cols.find? (fun c => c.1 = n)).map Prod.snd

/-- Find a column by name in a normalized matrix. -/
def findNCol (cols : NormDF) (n : String) : Option (List EF) :=
  (cols.find? (fun c => c.1 = n)).map Prod.snd

/-- One column of the pandas expression
`2 * (df - train_min) / (train_max - train_min) - 1`: the column is
transformed with the (min, max) of the `train` column bearing the same
label; a label absent from `train` yields a non-finite (NaN-filled)
column under pandas alignment. -/
def normEntry (train : RawDF) (c : String × List ℚ) : String × List EF :=
  match findCol train c.1 with
  | some tv => (c.1, c.2.map (normVal (colMin tv) (colMax tv)))
  | none => (c.1, c.2.map (fun _ => EF.nonfin))

/-- The pandas expression `2 * (df - train_min) / (train_max - train_min) - 1`,
applied column by column. -/
def normDF (train df : RawDF) : NormDF :=
  df.map (normEntry train)

/-- Overwrite one key of the kitchen store (`dk.data[key] = value`). -/
def setKey (st : Store) (k : String) (v : ℚ) : Store :=
  fun k' => if k' = k then some v else st k'

/-- The loop `for item in train_max.keys(): dk.data[item + "_max"] = ...;
dk.data[item + "_min"] = ...` of `normalize_data`. -/
def storeParams (cols : RawDF) (st : Store) : Store :=
  cols.foldl
    (fun s c => setKey (setKey s (c.1 ++ "_max") (colMax c.2)) (c.1 ++ "_min") (colMin c.2))
    st

/-- The data dictionary produced by `dk.make_train_test_datasets`, before
normalization. -/
structure DataDict where
  train_features : RawDF
  test_features : RawDF
  train_labels : RawDF
  test_labels : RawDF
  train_weights : List ℚ
  test_weights : List ℚ
deriving DecidableEq

/-- The data dictionary after `normalize_data`: the two feature matrices
hold extended values, the remaining entries are untouched. -/
structure NormDataDict where
  train_features : NormDF
  test_features : NormDF
  train_labels : RawDF
  test_labels : RawDF
  train_weights : List ℚ
  test_weights : List ℚ
deriving DecidableEq

/-- `normalize_data(self, data_dictionary, dk)`: computes `train_max` and
`train_min` over the train features, rescales both feature matrices with
those statistics, persists each column's (min, max) into `dk.data` under
`"<column>_max"` / `"<column>_min"`, and returns the updated dictionary
together with the updated store. -/
def normalize_data (dd : DataDict) (dkdata : Store) : NormDataDict × Store :=
  ({ train_features := normDF dd.train_features dd.train_features
     test_features := normDF dd.train_features dd.test_features
     train_labels := dd.train_labels
     test_labels := dd.test_labels
     train_weights := dd.train_weights
     test_weights := dd.test_weights },
   storeParams dd.train_features dkdata)

/-- The CatBoost constructor arguments used by `fit`. -/
structure CatBoostConfig where
  allow_writing_files : Bool
  loss_function : String
  early_stopping_rounds : ℕ
deriving DecidableEq

/-- The fitted classifier as the record of the `clf.fit` call: the external
CatBoost library is opaque, so the model is determined by its configuration
and the exact arguments the plugin passed to `fit`. -/
structure FittedModel where
  config : CatBoostConfig
  X : NormDF
  y : RawDF
  sample_weight : List ℚ
  eval_set : NormDF × RawDF
deriving DecidableEq

/-- `fit(self, data_dictionary)`: binds `X_test/y_test` to the "train"
partition, `X_train/y_train/sample_weight` to the "test" partition,
constructs `CatBoostClassifier(allow_writing_files=False,
loss_function=MultiClass, early_stopping_rounds=10)` and fits on
`(X_train, y_train, sample_weight)` with `eval_set=(X_test, y_test)`. -/
def fit (dd : NormDataDict) : FittedModel :=
  let X_test := dd.train_features
  let y_test := dd.train_labels
  let X_train := dd.test_features
  let y_train := dd.test_labels
  let sample_weight := dd.test_weights
  { config :=
      { allow_writing_files := false
        loss_function := "MultiClass"
        early_stopping_rounds := 10 }
    X := X_train
    y := y_train
    sample_weight := sample_weight
    eval_set := (X_test, y_test) }

/-- `return_values(self, dataframe)`: returns the dataframe unchanged. -/
def return_values (dataframe : RawDF) : RawDF :=
  dataframe

/-- C10: `return_values` is the identity on its input dataframe. -/
theorem return_values_id (dataframe : RawDF) :
    return_values dataframe = dataframe := rfl

/-- C9: `normalize_data` only rewrites the `train_features` and
`test_features` entries of the data dictionary; the labels and weights
entries of the returned dictionary are the input's, unchanged. -/
theorem normalize_data_frame (dd : DataDict) (st : Store) :
    (normalize_data dd st).1.train_labels = dd.train_labels ∧
    (normalize_data dd st).1.test_labels = dd.test_labels ∧
    (normalize_data dd st).1.train_weights = dd.train_weights ∧
    (normalize_data dd st).1.test_weights = dd.test_weights :=
  ⟨rfl, rfl, rfl, rfl⟩

/-- C2: `fit` constructs a fresh multi-class classifier with early-stopping
patience 10, fits it on the "test" partition's features and labels weighted
by the "test" weights, and evaluates against the "train" partition. -/
theorem fit_wiring (dd : NormDataDict) :
    (fit dd).X = dd.test_features ∧
    (fit dd).y = dd.test_labels ∧
    (fit dd).sample_weight = dd.test_weights ∧
    (fit dd).eval_set = (dd.train_features, dd.train_labels) ∧
    (fit dd).config.early_stopping_rounds = 10 ∧
    (fit dd).config.loss_function = "MultiClass" :=
  ⟨rfl, rfl, rfl, rfl, rfl, rfl⟩

/-- Appending the fixed suffix `"_min"` to a column name is injective. -/
theorem append_min_inj {a b : String} (h : a ++ "_min" = b ++ "_min") : a = b := by
  have hd : a.data ++ "_min".data = b.data ++ "_min".data := by
    have := congrArg String.data h
    simpa [String.data_append] using this
  exact String.ext (List.append_cancel_right hd)

/-- Appending the fixed suffix `"_max"` to a column name is injective. -/
theorem append_max_inj {a b : String} (h : a ++ "_max" = b ++ "_max") : a = b := by
  have hd : a.data ++ "_max".data = b.data ++ "_max".data := by
    have := congrArg String.data h
    simpa [String.data_append] using this
  exact String.ext (List.append_cancel_right hd)

/-- A `"_min"`-suffixed key never collides with a `"_max"`-suffixed key. -/
theorem append_min_ne_max (a b : String) : a ++ "_min" ≠ b ++ "_max" := by
  intro h
  have hd : a.data ++ "_min".data = b.data ++ "_max".data := by
    have := congrArg String.data h
    simpa [String.data_append] using this
  have hl : a.data.length = b.data.length := by
    have h2 := congrArg List.length hd
    rw [List.length_append, List.length_append] at h2
    have e1 : "_min".data.length = 4 := rfl
    have e2 : "_max".data.length = 4 := rfl
    omega
  have := (List.append_inj hd hl).2
  exact absurd this (by decide)

/-- Keys untouched by the persistence loop keep their previous store value. -/
theorem storeParams_frame (cols : RawDF) (st : Store) (k : String)
    (hk : ∀ c ∈ cols, k ≠ c.1 ++ "_min" ∧ k ≠ c.1 ++ "_max") :
    storeParams cols st k = st k := by
  induction cols generalizing st with
  | nil => rfl
  | cons d ds ih =>
    have hd := hk d (List.mem_cons_self d ds)
    have hrest : ∀ c ∈ ds, k ≠ c.1 ++ "_min" ∧ k ≠ c.1 ++ "_max" :=
      fun c hc => hk c (List.mem_cons_of_mem d hc)
    rw [storeParams, List.foldl_cons, ← storeParams, ih _ hrest]
    simp [setKey, hd.1, hd.2]

/-- After the persistence loop, a column's `"_min"` key holds its train
minimum (column names are unique in a pandas frame). -/
theorem storeParams_lookup_min (cols : RawDF) (st : Store)
    (hnd : (cols.map Prod.fst).Nodup) (c : String × List ℚ) (hc : c ∈ cols) :
    storeParams cols st (c.1 ++ "_min") = some (colMin c.2) := by
  induction cols generalizing st with
  | nil => exact absurd hc (List.not_mem_nil c)
  | cons d ds ih =>
    rw [List.map_cons, List.nodup_cons] at hnd
    rcases List.mem_cons.mp hc with hcd | hcds
    · subst hcd
      rw [storeParams, List.foldl_cons, ← storeParams]
      have hkeys : ∀ e ∈ ds, c.1 ++ "_min" ≠ e.1 ++ "_min" ∧ c.1 ++ "_min" ≠ e.1 ++ "_max" := by
        intro e he
        refine ⟨fun h => ?_, append_min_ne_max c.1 e.1⟩
        exact hnd.1 (append_min_inj h ▸ List.mem_map_of_mem Prod.fst he)
      rw [storeParams_frame ds _ _ hkeys]
      simp [setKey]
    · rw [storeParams, List.foldl_cons, ← storeParams]
      exact ih _ hnd.2 hcds
  
/-- After the persistence loop, a column's `"_max"` key holds its train
maximum. -/
theorem storeParams_lookup_max (cols : RawDF) (st : Store)
    (hnd : (cols.map Prod.fst).Nodup) (c : String × List ℚ) (hc : c ∈ cols) :
    storeParams cols st (c.1 ++ "_max") = some (colMax c.2) := by
  induction cols generalizing st with
  | nil => exact absurd hc (List.not_mem_nil c)
  | cons d ds ih =>
    rw [List.map_cons, List.nodup_cons] at hnd
    rcases List.mem_cons.mp hc with hcd | hcds
    · subst hcd
      rw [storeParams, List.foldl_cons, ← storeParams]
      have hkeys : ∀ e ∈ ds, c.1 ++ "_max" ≠ e.1 ++ "_min" ∧ c.1 ++ "_max" ≠ e.1 ++ "_max" := by
        intro e he
        refine ⟨fun h => (append_min_ne_max e.1 c.1) h.symm, fun h => ?_⟩
        exact hnd.1 (append_max_inj h ▸ List.mem_map_of_mem Prod.fst he)
      rw [storeParams_frame ds _ _ hkeys]
      have hne : c.1 ++ "_max" ≠ c.1 ++ "_min" := fun h => append_min_ne_max c.1 c.1 h.symm
      simp [setKey, hne]
    · rw [storeParams, List.foldl_cons, ← storeParams]
      exact ih _ hnd.2 hcds

/-- C5: after `normalize_data`, the kitchen store maps, for every train
feature column, exactly the keys `"<column>_min"` and `"<column>_max"` to
that column's pre-normalization train min and max; every other key keeps
its previous value. -/
theorem normalize_persists_params (dd : DataDict) (st : Store)
    (hnd : (dd.train_features.map Prod.fst).Nodup) :
    (∀ c ∈ dd.train_features,
      (normalize_data dd st).2 (c.1 ++ "_min") = some (colMin c.2) ∧
      (normalize_data dd st).2 (c.1 ++ "_max") = some (colMax c.2)) ∧
    (∀ k, (∀ c ∈ dd.train_features, k ≠ c.1 ++ "_min" ∧ k ≠ c.1 ++ "_max") →
      (normalize_data dd st).2 k = st k) := by
  constructor
  · intro c hc
    exact ⟨storeParams_lookup_min dd.train_features st hnd c hc,
           storeParams_lookup_max dd.train_features st hnd c hc⟩
  · intro k hk
    exact storeParams_frame dd.train_features st k hk

/-- Witness for C5 on a two-column train matrix and an empty store. -/
theorem normalize_persists_params_witness :
    (([("a", [(0 : ℚ), 10]), ("b", [5, 5])].map Prod.fst).Nodup) ∧
    ((∀ c ∈ [("a", [(0 : ℚ), 10]), ("b", [5, 5])],
      (normalize_data
        { train_features := [("a", [0, 10]), ("b", [5, 5])]
          test_features := [("a", [2]), ("b", [6])]
          train_labels := []
          test_labels := []
          train_weights := []
          test_weights := [] }
        (fun _ => none)).2 (c.1 ++ "_min") = some (colMin c.2) ∧
      (normalize_data
        { train_features := [("a", [0, 10]), ("b", [5, 5])]
          test_features := [("a", [2]), ("b", [6])]
          train_labels := []
          test_labels := []
          train_weights := []
          test_weights := [] }
        (fun _ => none)).2 (c.1 ++ "_max") = some (colMax c.2)) ∧
    (∀ k, (∀ c ∈ [("a", [(0 : ℚ), 10]), ("b", [5, 5])],
        k ≠ c.1 ++ "_min" ∧ k ≠ c.1 ++ "_max") →
      (normalize_data
        { train_features := [("a", [0, 10]), ("b", [5, 5])]
          test_features := [("a", [2]), ("b", [6])]
          train_labels := []
          test_labels := []
          train_weights := []
          test_weights := [] }
        (fun _ => none)).2 k = none)) :=
  ⟨by decide,
   normalize_persists_params
     { train_features := [("a", [0, 10]), ("b", [5, 5])]
       test_features := [("a", [2]), ("b", [6])]
       train_labels := []
       test_labels := []
       train_weights := []
       test_weights := [] }
     (fun _ => none) (by decide)⟩

/-- A column of a duplicate-free frame is found by its own name. -/
theorem findCol_self (cols : RawDF) (hnd : (cols.map Prod.fst).Nodup)
    (c : String × List ℚ) (hc : c ∈ cols) : findCol cols c.1 = some c.2 := by
  induction cols with
  | nil => exact absurd hc (List.not_mem_nil c)
  | cons d ds ih =>
    rw [List.map_cons, List.nodup_cons] at hnd
    rcases List.mem_cons.mp hc with hcd | hcds
    · subst hcd
      simp [findCol, List.find?]
    · have hne : d.1 ≠ c.1 := by
        intro h
        exact hnd.1 (h ▸ List.mem_map_of_mem Prod.fst hcds)
      have hstep : findCol (d :: ds) c.1 = findCol ds c.1 := by
        simp [findCol, List.find?, hne]
      rw [hstep]
      exact ih hnd.2 hcds

/-- Modelled from the spec: the Normalizer's apply-from-stored-parameters
operation (`dk.normalize_data_from_metadata`, host-framework code absent
from this repository). It applies the same affine transform per column
using the stored `"<column>_min"`/`"<column>_max"` parameters retrieved by
column name rather than recomputing them; a column whose parameters are
absent yields garbage (non-finite values). -/
def applyStoredParams (st : Store) (df : RawDF) : NormDF :=
  df.map (fun c =>
    match st (c.1 ++ "_min"), st (c.1 ++ "_max") with
    | some mn, some mx => (c.1, c.2.map (normVal mn mx))
    | _, _ => (c.1, c.2.map (fun _ => EF.nonfin)))

/-- C6: re-applying the persisted parameters to the exact raw training
matrix reproduces the fit-and-apply output on that matrix. -/
theorem reapply_stored_params (dd : DataDict) (st : Store)
    (hnd : (dd.train_features.map Prod.fst).Nodup) :
    applyStoredParams (normalize_data dd st).2 dd.train_features =
      (normalize_data dd st).1.train_features := by
  show applyStoredParams (storeParams dd.train_features st) dd.train_features =
      normDF dd.train_features dd.train_features
  unfold applyStoredParams normDF normEntry
  apply List.map_congr_left
  intro c hc
  rw [storeParams_lookup_min _ _ hnd c hc, storeParams_lookup_max _ _ hnd c hc,
    findCol_self _ hnd c hc]

/-- Witness for C6 on a concrete two-column dictionary. -/
theorem reapply_stored_params_witness :
    (([("a", [(0 : ℚ), 10]), ("b", [1, 3])].map Prod.fst).Nodup) ∧
    applyStoredParams
      (normalize_data
        { train_features := [("a", [0, 10]), ("b", [1, 3])]
          test_features := [("a", [2]), ("b", [5])]
          train_labels := []
          test_labels := []
          train_weights := []
          test_weights := [] }
        (fun _ => none)).2
      [("a", [(0 : ℚ), 10]), ("b", [1, 3])] =
    (normalize_data
      { train_features := [("a", [0, 10]), ("b", [1, 3])]
        test_features := [("a", [2]), ("b", [5])]
        train_labels := []
        test_labels := []
        train_weights := []
        test_weights := [] }
      (fun _ => none)).1.train_features :=
  ⟨by decide,
   reapply_stored_params
     { train_features := [("a", [0, 10]), ("b", [1, 3])]
       test_features := [("a", [2]), ("b", [5])]
       train_labels := []
       test_labels := []
       train_weights := []
       test_weights := [] }
     (fun _ => none) (by decide)⟩

/-- Unfold one step of a `findCol` lookup. -/
theorem findCol_cons (c : String × List ℚ) (cs : RawDF) (n : String) :
    findCol (c :: cs) n = if c.1 = n then some c.2 else findCol cs n := by
  by_cases h : c.1 = n <;> simp [findCol, List.find?_cons, h]

/-- A successful `findCol` lookup returns a column of the frame. -/
theorem findCol_mem {cols : RawDF} {n : String} {tv : List ℚ}
    (h : findCol cols n = some tv) : (n, tv) ∈ cols := by
  unfold findCol at h
  cases hf : cols.find? (fun c => c.1 = n) with
  | none => rw [hf] at h; exact absurd h (by simp)
  | some p =>
    rw [hf] at h
    have hmem := List.mem_of_find?_eq_some hf
    have hp := List.find?_some hf
    simp only [decide_eq_true_eq] at hp
    simp only [Option.map_some', Option.some.injEq] at h
    have hpe : p = (n, tv) := by
      obtain ⟨a, b⟩ := p
      simp only [Prod.mk.injEq]
      exact ⟨hp, h⟩
    rwa [hpe] at hmem

/-- `findNCol` after `normDF`: the looked-up normalized column is the raw
column of `df`, rescaled with the (min, max) of the same-named train
column. -/
theorem findNCol_normDF (train df : RawDF) (n : String) :
    findNCol (normDF train df) n =
      (findCol df n).map (fun sv =>
        match findCol train n with
        | some tv => sv.map (normVal (colMin tv) (colMax tv))
        | none => sv.map (fun _ => EF.nonfin)) := by
  induction df with
  | nil => rfl
  | cons c cs ih =>
    have hfst : (normEntry train c).1 = c.1 := by
      unfold normEntry
      cases findCol train c.1 <;> rfl
    show findNCol (normEntry train c :: normDF train cs) n = _
    rw [findNCol, List.find?_cons, hfst, findCol_cons]
    by_cases hcn : c.1 = n
    · subst hcn
      have hdec : decide (c.1 = c.1) = true := by simp
      rw [hdec, if_pos rfl]
      simp only [Option.map_some]
      unfold normEntry
      cases htv : findCol train c.1 <;> simp [htv]
    · have hdec : decide (c.1 = n) = false := by simp [hcn]
      rw [hdec, if_neg hcn]
      exact ih

/-- C1: on a data dictionary with non-empty feature matrices whose train
columns all have a non-degenerate range, `normalize_data` computes each
column's (min, max) over the train matrix only and replaces every value `v`
of both the train and the test matrix by `2*(v-min)/(max-min) - 1`, using
the train column of the same name for both — never statistics of the test
data. -/
theorem normalize_train_only_stats (dd : DataDict) (st : Store)
    (hne1 : dd.train_features ≠ []) (hne2 : dd.test_features ≠ [])
    (hdeg : ∀ c ∈ dd.train_features, colMin c.2 < colMax c.2) :
    (∀ n tv, findCol dd.train_features n = some tv →
      findNCol (normalize_data dd st).1.train_features n =
        some (tv.map (fun v =>
          EF.fin (2 * (v - colMin tv) / (colMax tv - colMin tv) - 1)))) ∧
    (∀ n sv tv, findCol dd.test_features n = some sv →
      findCol dd.train_features n = some tv →
      findNCol (normalize_data dd st).1.test_features n =
        some (sv.map (fun v =>
          EF.fin (2 * (v - colMin tv) / (colMax tv - colMin tv) - 1)))) := by
  constructor
  · intro n tv htv
    have hlt := hdeg _ (findCol_mem htv)
    have hmx : colMax tv ≠ colMin tv := ne_of_gt hlt
    show findNCol (normDF dd.train_features dd.train_features) n = _
    rw [findNCol_normDF, htv]
    simp only [Option.map_some', Option.some.injEq]
    apply List.map_congr_left
    intro v hv
    rw [normVal, if_neg hmx]
  · intro n sv tv hsv htv
    have hlt := hdeg _ (findCol_mem htv)
    have hmx : colMax tv ≠ colMin tv := ne_of_gt hlt
    show findNCol (normDF dd.train_features dd.test_features) n = _
    rw [findNCol_normDF, hsv, htv]
    simp only [Option.map_some', Option.some.injEq]
    apply List.map_congr_left
    intro v hv
    rw [normVal, if_neg hmx]

/-- Witness for C1 on a concrete two-column dictionary. -/
theorem normalize_train_only_stats_witness :
    (([("a", [(0 : ℚ), 10]), ("b", [1, 3])] : RawDF) ≠ []) ∧
    (([("a", [(2 : ℚ)]), ("b", [5])] : RawDF) ≠ []) ∧
    (∀ c ∈ ([("a", [(0 : ℚ), 10]), ("b", [1, 3])] : RawDF),
      colMin c.2 < colMax c.2) ∧
    ((∀ n tv, findCol [("a", [(0 : ℚ), 10]), ("b", [1, 3])] n = some tv →
      findNCol (normalize_data
        { train_features := [("a", [0, 10]), ("b", [1, 3])]
          test_features := [("a", [2]), ("b", [5])]
          train_labels := []
          test_labels := []
          train_weights := []
          test_weights := [] }
        (fun _ => none)).1.train_features n =
        some (tv.map (fun v =>
          EF.fin (2 * (v - colMin tv) / (colMax tv - colMin tv) - 1)))) ∧
    (∀ n sv tv, findCol [("a", [(2 : ℚ)]), ("b", [5])] n = some sv →
      findCol [("a", [(0 : ℚ), 10]), ("b", [1, 3])] n = some tv →
      findNCol (normalize_data
        { train_features := [("a", [0, 10]), ("b", [1, 3])]
          test_features := [("a", [2]), ("b", [5])]
          train_labels := []
          test_labels := []
          train_weights := []
          test_weights := [] }
        (fun _ => none)).1.test_features n =
        some (sv.map (fun v =>
          EF.fin (2 * (v - colMin tv) / (colMax tv - colMin tv) - 1))))) :=
  ⟨by decide, by decide, by decide,
   normalize_train_only_stats
     { train_features := [("a", [0, 10]), ("b", [1, 3])]
       test_features := [("a", [2]), ("b", [5])]
       train_labels := []
       test_labels := []
       train_weights := []
       test_weights := [] }
     (fun _ => none) (by decide) (by decide) (by decide)⟩

/-- C4: for parameters with `min < max`, the transform
`2*(v-min)/(max-min) - 1` is strictly increasing in `v`, maps `min` to `-1`,
`max` to `1` and the midpoint to `0`; in particular `(min, max) = (0, 10)`
sends `v = 5` to `0`. -/
theorem transform_monotone_endpoints (mn mx : ℚ) (h : mn < mx) :
    (∀ v w : ℚ, v < w →
      2 * (v - mn) / (mx - mn) - 1 < 2 * (w - mn) / (mx - mn) - 1) ∧
    (∀ v : ℚ, normVal mn mx v = EF.fin (2 * (v - mn) / (mx - mn) - 1)) ∧
    normVal mn mx mn = EF.fin (-1) ∧
    normVal mn mx mx = EF.fin 1 ∧
    normVal mn mx ((mn + mx) / 2) = EF.fin 0 ∧
    normVal 0 10 5 = EF.fin 0 := by
  have hne : mx ≠ mn := ne_of_gt h
  have hd : (0 : ℚ) < mx - mn := sub_pos.mpr h
  have hdne : mx - mn ≠ 0 := ne_of_gt hd
  refine ⟨?_, ?_, ?_, ?_, ?_, ?_⟩
  · intro v w hvw
    have h2 : 2 * (v - mn) < 2 * (w - mn) := by linarith
    have h3 := mul_lt_mul_of_pos_right h2 (inv_pos.mpr hd)
    rw [div_eq_mul_inv, div_eq_mul_inv]
    linarith
  · intro v
    rw [normVal, if_neg hne]
  · rw [normVal, if_neg hne]
    congr 1
    rw [sub_self, mul_zero, zero_div]
    ring
  · rw [normVal, if_neg hne]
    congr 1
    field_simp
    norm_num
  · rw [normVal, if_neg hne]
    congr 1
    field_simp
    ring
  · rw [normVal, if_neg (by norm_num : (10 : ℚ) ≠ 0)]
    norm_num

/-- Witness for C4 at `(min, max) = (0, 10)`. -/
theorem transform_monotone_endpoints_witness :
    ((0 : ℚ) < 10) ∧
    ((∀ v w : ℚ, v < w →
      2 * (v - 0) / (10 - 0) - 1 < 2 * (w - 0) / (10 - 0) - 1) ∧
    (∀ v : ℚ, normVal 0 10 v = EF.fin (2 * (v - 0) / (10 - 0) - 1)) ∧
    normVal 0 10 0 = EF.fin (-1) ∧
    normVal 0 10 10 = EF.fin 1 ∧
    normVal 0 10 ((0 + 10) / 2) = EF.fin 0 ∧
    normVal 0 10 5 = EF.fin 0) :=
  ⟨by norm_num, transform_monotone_endpoints 0 10 (by norm_num)⟩

/-- C3 (behavior at the failing input): on the spec's own scenario — train
features `a = [0, 10]`, `b = [5, 5]` — the degenerate column `b`
(min = max = 5) is not guarded and not replaced by the default `0`: every
normalized entry of `b` is non-finite (0/0, a NaN), silently, in both the
train and the test matrix, while `a` maps to `[-1, 1]`. -/
theorem degenerate_column_emits_nonfinite :
    (normalize_data
      { train_features := [("a", [0, 10]), ("b", [5, 5])]
        test_features := [("a", [2]), ("b", [6])]
        train_labels := []
        test_labels := []
        train_weights := []
        test_weights := [] }
      (fun _ => none)).1.train_features =
      [("a", [EF.fin (-1), EF.fin 1]), ("b", [EF.nonfin, EF.nonfin])] ∧
    (normalize_data
      { train_features := [("a", [0, 10]), ("b", [5, 5])]
        test_features := [("a", [2]), ("b", [6])]
        train_labels := []
        test_labels := []
        train_weights := []
        test_weights := [] }
      (fun _ => none)).1.test_features =
      [("a", [EF.fin (-3/5)]), ("b", [EF.nonfin])] := by
  have hab : decide ("a" = "b") = false := rfl
  have haa : decide ("a" = "a") = true := rfl
  have hbb : decide ("b" = "b") = true := rfl
  constructor <;>
    norm_num [normalize_data, normDF, normEntry, findCol, List.find?, colMin,
      colMax, normVal, hab, haa, hbb]

/-- The row count of a column-oriented normalized frame: the length of its
first column (0 when there are no columns). -/
def numRows : NormDF → ℕ
  | [] => 0
  | c :: _ => c.2.length

/-- The slice of the data kitchen's state that `predict` touches: the
training feature list, the `data_dictionary["prediction_features"]` entry,
the `do_predict` marker array and the per-pair store `dk.data`. -/
structure Kitchen where
  training_features_list : List String
  prediction_features : Option NormDF
  do_predict : List Bool
  data : Store

/-- The dataframe `DataFrame(predictions, columns=self.model.classes_)`. -/
structure PredDF where
  rows : List (List ℚ)
  columns : List String
deriving DecidableEq

/-- `predict(self, unfiltered_dataframe, dk, first)`: runs
`dk.find_features`, `dk.filter_features(..., training_filter=False)` and
`dk.normalize_data_from_metadata` (host-framework collaborators, passed
here as function parameters), stores the normalized features under
`dk.data_dictionary["prediction_features"]`, runs the inherited
`data_cleaning_predict`, applies the fitted model's `predict_proba` to the
stored prediction features, and returns the probability dataframe (columns
named by the model's class labels, `self.model.classes_`) together with
`dk.do_predict`. The updated kitchen is returned explicitly so the
mutation of `dk` is visible in the embedding. -/
def predict
    (find_features : Kitchen → RawDF → Kitchen)
    (filter_features : Kitchen → RawDF → RawDF)
    (normalize_data_from_metadata : Kitchen → RawDF → NormDF)
    (data_cleaning_predict : Kitchen → NormDF → Kitchen)
    (classes_ : List String)
    (predict_proba : NormDF → List (List ℚ))
    (unfiltered_dataframe : RawDF) (dk : Kitchen) (first : Bool) :
    (PredDF × List Bool) × Kitchen :=
  let dk1 := find_features dk unfiltered_dataframe
  let filtered_dataframe := filter_features dk1 unfiltered_dataframe
  let nfiltered := normalize_data_from_metadata dk1 filtered_dataframe
  let dk2 := { dk1 with prediction_features := some nfiltered }
  let dk3 := data_cleaning_predict dk2 nfiltered
  let predictions := predict_proba (dk3.prediction_features.getD [])
  let pred_df : PredDF := { rows := predictions, columns := classes_ }
  ((pred_df, dk3.do_predict), dk3)

/-- C7: `predict` returns a pair whose first component is the dataframe of
per-row class probabilities — `predict_proba` applied to the prediction
features, one row per input row, columns named by the fitted classifier's
class labels — and whose second component is the kitchen's `do_predict`
mask. (The external `data_cleaning_predict` is assumed to preserve the
stored prediction features, and `predict_proba` to emit one row per input
row.) -/
theorem predict_returns_proba_and_mask
    (find_features : Kitchen → RawDF → Kitchen)
    (filter_features : Kitchen → RawDF → RawDF)
    (normalize_data_from_metadata : Kitchen → RawDF → NormDF)
    (data_cleaning_predict : Kitchen → NormDF → Kitchen)
    (classes_ : List String)
    (predict_proba : NormDF → List (List ℚ))
    (unfiltered_dataframe : RawDF) (dk : Kitchen) (first : Bool)
    (hclean : ∀ k df, (data_cleaning_predict k df).prediction_features =
      k.prediction_features)
    (hrows : ∀ df, (predict_proba df).length = numRows df) :
    (predict find_features filter_features normalize_data_from_metadata
      data_cleaning_predict classes_ predict_proba unfiltered_dataframe dk
      first).1.1.columns = classes_ ∧
    (predict find_features filter_features normalize_data_from_metadata
      data_cleaning_predict classes_ predict_proba unfiltered_dataframe dk
      first).1.1.rows =
      predict_proba (normalize_data_from_metadata
        (find_features dk unfiltered_dataframe)
        (filter_features (find_features dk unfiltered_dataframe)
          unfiltered_dataframe)) ∧
    (predict find_features filter_features normalize_data_from_metadata
      data_cleaning_predict classes_ predict_proba unfiltered_dataframe dk
      first).1.1.rows.length =
      numRows (normalize_data_from_metadata
        (find_features dk unfiltered_dataframe)
        (filter_features (find_features dk unfiltered_dataframe)
          unfiltered_dataframe)) ∧
    (predict find_features filter_features normalize_data_from_metadata
      data_cleaning_predict classes_ predict_proba unfiltered_dataframe dk
      first).1.2 =
      (predict find_features filter_features normalize_data_from_metadata
        data_cleaning_predict classes_ predict_proba unfiltered_dataframe dk
        first).2.do_predict := by
  refine ⟨rfl, ?_, ?_, rfl⟩
  · simp only [predict, hclean, Option.getD_some]
  · simp only [predict, hclean, Option.getD_some]
    exact hrows _

/-- A concrete kitchen state with an empty store, used as a test fixture. -/
def dk0 : Kitchen :=
  { training_features_list := []
    prediction_features := none
    do_predict := []
    data := fun _ => none }

/-- Witness for C7: concrete collaborators on a one-column input frame. -/
theorem predict_returns_proba_and_mask_witness :
    (∀ k df, ((fun (k : Kitchen) (_ : NormDF) => k) k df).prediction_features =
      k.prediction_features) ∧
    (∀ df, ((fun df => List.replicate (numRows df) ([] : List ℚ)) df).length =
      numRows df) ∧
    ((predict (fun k _ => k) (fun _ df => df)
      (fun _ df => df.map (fun c => (c.1, c.2.map EF.fin))) (fun k _ => k)
      ["down", "up"] (fun df => List.replicate (numRows df) [])
      [("a", [1])] dk0 false).1.1.columns = ["down", "up"] ∧
    (predict (fun k _ => k) (fun _ df => df)
      (fun _ df => df.map (fun c => (c.1, c.2.map EF.fin))) (fun k _ => k)
      ["down", "up"] (fun df => List.replicate (numRows df) [])
      [("a", [1])] dk0 false).1.1.rows =
      (fun df => List.replicate (numRows df) [])
        ((fun (_ : Kitchen) (df : RawDF) =>
            df.map (fun c => (c.1, c.2.map EF.fin)))
          ((fun (k : Kitchen) (_ : RawDF) => k) dk0 [("a", [1])])
          ((fun (_ : Kitchen) (df : RawDF) => df)
            ((fun (k : Kitchen) (_ : RawDF) => k) dk0 [("a", [1])])
            [("a", [1])])) ∧
    (predict (fun k _ => k) (fun _ df => df)
      (fun _ df => df.map (fun c => (c.1, c.2.map EF.fin))) (fun k _ => k)
      ["down", "up"] (fun df => List.replicate (numRows df) [])
      [("a", [1])] dk0 false).1.1.rows.length =
      numRows ((fun (_ : Kitchen) (df : RawDF) =>
            df.map (fun c => (c.1, c.2.map EF.fin)))
          ((fun (k : Kitchen) (_ : RawDF) => k) dk0 [("a", [1])])
          ((fun (_ : Kitchen) (df : RawDF) => df)
            ((fun (k : Kitchen) (_ : RawDF) => k) dk0 [("a", [1])])
            [("a", [1])])) ∧
    (predict (fun k _ => k) (fun _ df => df)
      (fun _ df => df.map (fun c => (c.1, c.2.map EF.fin))) (fun k _ => k)
      ["down", "up"] (fun df => List.replicate (numRows df) [])
      [("a", [1])] dk0 false).1.2 =
      (predict (fun k _ => k) (fun _ df => df)
        (fun _ df => df.map (fun c => (c.1, c.2.map EF.fin))) (fun k _ => k)
        ["down", "up"] (fun df => List.replicate (numRows df) [])
        [("a", [1])] dk0 false).2.do_predict) :=
  ⟨fun k df => rfl, fun df => by simp,
   predict_returns_proba_and_mask (fun k _ => k) (fun _ df => df)
     (fun _ df => df.map (fun c => (c.1, c.2.map EF.fin))) (fun k _ => k)
     ["down", "up"] (fun df => List.replicate (numRows df) [])
     [("a", [1])] dk0 false (fun k df => rfl) (fun df => by simp)⟩

/-- C8 counterexample: `predict` does mutate externally visible state — at
a concrete input the kitchen it returns differs from the kitchen passed in,
because the normalized prediction features were written into the kitchen's
data dictionary. -/
theorem predict_mutates_kitchen :
    (predict (fun k _ => k) (fun _ df => df) (fun _ _ => []) (fun k _ => k)
      [] (fun _ => []) [] dk0 false).2 ≠ dk0 := by
  intro h
  have h2 := congrArg Kitchen.prediction_features h
  simp [predict, dk0] at h2

/-- C8 (amended): apart from the console echo, the only change `predict`
itself makes to externally visible state is storing the filtered,
normalized prediction features under the kitchen's prediction-features
entry: when the external collaborators `find_features` and
`data_cleaning_predict` leave the kitchen unchanged, every other kitchen
field is returned exactly as it came in. -/
theorem predict_frame
    (find_features : Kitchen → RawDF → Kitchen)
    (filter_features : Kitchen → RawDF → RawDF)
    (normalize_data_from_metadata : Kitchen → RawDF → NormDF)
    (data_cleaning_predict : Kitchen → NormDF → Kitchen)
    (classes_ : List String)
    (predict_proba : NormDF → List (List ℚ))
    (unfiltered_dataframe : RawDF) (dk : Kitchen) (first : Bool)
    (hfind : ∀ k df, find_features k df = k)
    (hclean : ∀ k df, data_cleaning_predict k df = k) :
    (predict find_features filter_features normalize_data_from_metadata
      data_cleaning_predict classes_ predict_proba unfiltered_dataframe dk
      first).2.training_features_list = dk.training_features_list ∧
    (predict find_features filter_features normalize_data_from_metadata
      data_cleaning_predict classes_ predict_proba unfiltered_dataframe dk
      first).2.do_predict = dk.do_predict ∧
    (predict find_features filter_features normalize_data_from_metadata
      data_cleaning_predict classes_ predict_proba unfiltered_dataframe dk
      first).2.data = dk.data ∧
    (predict find_features filter_features normalize_data_from_metadata
      data_cleaning_predict classes_ predict_proba unfiltered_dataframe dk
      first).2.prediction_features =
      some (normalize_data_from_metadata dk
        (filter_features dk unfiltered_dataframe)) := by
  simp [predict, hfind, hclean]

/-- Witness for C8's amended frame property with concrete collaborators. -/
theorem predict_frame_witness :
    (∀ (k : Kitchen) (df : RawDF), (fun (k : Kitchen) (_ : RawDF) => k) k df = k) ∧
    (∀ (k : Kitchen) (df : NormDF), (fun (k : Kitchen) (_ : NormDF) => k) k df = k) ∧
    ((predict (fun k _ => k) (fun _ df => df) (fun _ _ => []) (fun k _ => k)
      [] (fun _ => []) [("a", [1])] dk0 false).2.training_features_list =
      dk0.training_features_list ∧
    (predict (fun k _ => k) (fun _ df => df) (fun _ _ => []) (fun k _ => k)
      [] (fun _ => []) [("a", [1])] dk0 false).2.do_predict = dk0.do_predict ∧
    (predict (fun k _ => k) (fun _ df => df) (fun _ _ => []) (fun k _ => k)
      [] (fun _ => []) [("a", [1])] dk0 false).2.data = dk0.data ∧
    (predict (fun k _ => k) (fun _ df => df) (fun _ _ => []) (fun k _ => k)
      [] (fun _ => []) [("a", [1])] dk0 false).2.prediction_features =
      some ((fun (_ : Kitchen) (_ : RawDF) => ([] : NormDF)) dk0
        ((fun (_ : Kitchen) (df : RawDF) => df) dk0 [("a", [1])]))) :=
  ⟨fun k df => rfl, fun k df => rfl,
   predict_frame (fun k _ => k) (fun _ df => df) (fun _ _ => [])
     (fun k _ => k) [] (fun _ => []) [("a", [1])] dk0 false
     (fun k df => rfl) (fun k df => rfl)⟩
